import Mathlib

/-!
Shallow embedding of the kusion Release / Resource data model
(src/pkg/apis/api.kusion.io/v1/types.go) and of the graph, diff,
validation and allocation operations specified for it, with theorems
settling the specification claims.
-/

namespace Kusion

/-- JSON/YAML-like values, used for the Go `map[string]interface{}` fields
(Resource.Attributes, Resource.Extensions, GenericConfig). -/
inductive Value where
  | vnull : Value
  | vbool : Bool → Value
  | vint : Int → Value
  | vstr : String → Value
  | varr : List Value → Value
  | vobj : List (String × Value) → Value

mutual

/-- Size of a value, used as fuel for the deep structural comparison. -/
def valueSize : Value → Nat
  | .vnull => 1
  | .vbool _ => 1
  | .vint _ => 1
  | .vstr _ => 1
  | .varr xs => valueListSize xs + 1
  | .vobj xs => valueObjSize xs + 1

/-- Total size of a list of values. -/
def valueListSize : List Value → Nat
  | [] => 0
  | x :: xs => valueSize x + valueListSize xs + 1

/-- Total size of a string-keyed mapping of values. -/
def valueObjSize : List (String × Value) → Nat
  | [] => 0
  | (_, v) :: xs => valueSize v + valueObjSize xs + 1

end

mutual

/-- Deep structural comparison of values, order-insensitive for mapping keys
and order-sensitive for arrays, with a fuel argument for termination.
Models the deep comparison the Spec/State differ applies to Attributes. -/
def structEqF : Nat → Value → Value → Bool
  | 0, _, _ => false
  | _ + 1, .vnull, .vnull => true
  | _ + 1, .vbool a, .vbool b => a == b
  | _ + 1, .vint a, .vint b => a == b
  | _ + 1, .vstr a, .vstr b => a == b
  | n + 1, .varr xs, .varr ys => arrEqF n xs ys
  | n + 1, .vobj xs, .vobj ys => objLeF n xs ys && objLeF n ys xs
  | _ + 1, _, _ => false
termination_by n _ _ => (n, 0)

/-- Pairwise deep comparison of value arrays (order-sensitive). -/
def arrEqF : Nat → List Value → List Value → Bool
  | _, [], [] => true
  | n, x :: xs, y :: ys => structEqF n x y && arrEqF n xs ys
  | _, _, _ => false
termination_by n xs _ => (n, xs.length + 1)

/-- One-sided mapping inclusion: every key of the first object is present in
the second with a deeply equal value (key order irrelevant). -/
def objLeF : Nat → List (String × Value) → List (String × Value) → Bool
  | _, [], _ => true
  | n, kv :: rest, ys =>
    (match ys.find? (fun kv2 => kv2.1 == kv.1) with
     | some kv2 => structEqF n kv.2 kv2.2
     | none => false) && objLeF n rest ys
termination_by n xs _ => (n, xs.length + 1)

end

/-- Deep, key-order-insensitive structural equality of two attribute mappings. -/
def attrsEq (a b : List (String × Value)) : Bool :=
  structEqF (valueObjSize a + valueObjSize b + 1) (.vobj a) (.vobj b)

/-- Resource, translated from src/pkg/apis/api.kusion.io/v1/types.go.
The Go field Type is a string type, Attributes and Extensions are
string-keyed mappings, DependsOn is a list of resource IDs. -/
structure Resource where
  id : String
  type : String
  attributes : List (String × Value)
  dependsOn : List String
  extensions : List (String × Value)

/-- Spec, translated from types.go: the desired list of Resources. -/
structure Spec where
  resources : List Resource

/-- State, translated from types.go: the last recorded list of Resources. -/
structure State where
  resources : List Resource

/-- The IDs of a Resource collection, in order. -/
def ids (R : List Resource) : List String :=
  R.map (fun r => r.id)

/-- The collection has pairwise-unique resource IDs. -/
def uniqueIDs (R : List Resource) : Prop :=
  (ids R).Nodup

/-- Every DependsOn entry of every resource resolves to an ID present in the
collection. -/
def noDangling (R : List Resource) : Prop :=
  ∀ r ∈ R, ∀ d ∈ r.dependsOn, d ∈ ids R

/-- Dependency edge: resource with ID a depends on the resource with ID b. -/
def edge (R : List Resource) (a b : String) : Prop :=
  ∃ r ∈ R, r.id = a ∧ b ∈ r.dependsOn

/-- Chain of dependency edges of the given length. -/
def stepsTo (R : List Resource) : Nat → String → String → Prop
  | 0, a, b => a = b
  | n + 1, a, b => ∃ c, edge R a c ∧ stepsTo R n c b

/-- The dependency relation has a cycle: a nonempty edge chain from some ID
back to itself. -/
def hasCycle (R : List Resource) : Prop :=
  ∃ a n, stepsTo R (n + 1) a a

/-- The kinds of error BuildGraph reports, per spec section 4.1. -/
inductive GraphErrorKind where
  | duplicateID : GraphErrorKind
  | danglingDependency : GraphErrorKind
  | cyclicDependency : GraphErrorKind
deriving DecidableEq

/-- A resource is ready to be emitted once all its dependencies are emitted. -/
def ready (done : List String) (r : Resource) : Bool :=
  r.dependsOn.all (fun d => decide (d ∈ done))

/-- Extract some ready resource from the pending list, returning it together
with the remaining pending resources. -/
def extractReady (done : List String) : List Resource → Option (Resource × List Resource)
  | [] => none
  | r :: rest =>
    if ready done r then some (r, rest)
    else match extractReady done rest with
      | some (x, rest2) => some (x, r :: rest2)
      | none => none

/-- Kahn-style topological emission: repeatedly emit a resource all of whose
dependencies are already emitted; fail when stuck. -/
def topoAux : Nat → List String → List Resource → Option (List String)
  | _, done, [] => some done.reverse
  | 0, _, _ => none
  | fuel + 1, done, pending =>
    match extractReady done pending with
    | some (r, rest) => topoAux fuel (r.id :: done) rest
    | none => none

/-- Topological sort of a resource collection, dependencies first. -/
def topoSort (R : List Resource) : Option (List String) :=
  topoAux R.length [] R

/-- Modelled from the spec: BuildGraph (spec section 4.1) is absent from src.
It validates unique IDs, then resolvable DependsOn entries, then acyclicity,
and returns the dependency-first linearization of the graph. -/
def buildGraph (R : List Resource) : Except GraphErrorKind (List String) :=
  if ¬ (ids R).Nodup then .error .duplicateID
  else if ¬ (∀ r ∈ R, ∀ d ∈ r.dependsOn, d ∈ ids R) then .error .danglingDependency
  else match topoSort R with
    | some order => .ok order
    | none => .error .cyclicDependency

/-- When extraction fails, no pending resource is ready. -/
lemma extractReady_eq_none (done : List String) :
    ∀ pending : List Resource, extractReady done pending = none →
      ∀ r ∈ pending, ready done r = false := by
  intro pending
  induction pending with
  | nil => intro _ r hr; cases hr
  | cons p ps ih =>
    intro h r hr
    by_cases hp : ready done p
    · simp [extractReady, hp] at h
    · rcases List.mem_cons.mp hr with rfl | hr2
      · exact Bool.eq_false_iff.mpr hp
      · cases hx : extractReady done ps with
        | some v => rw [extractReady, if_neg hp, hx] at h; cases h
        | none => exact ih hx r hr2

/-- When extraction succeeds, the extracted resource is ready and splits the
pending list. -/
lemma extractReady_eq_some (done : List String) :
    ∀ pending r rest, extractReady done pending = some (r, rest) →
      ∃ l1 l2, pending = l1 ++ r :: l2 ∧ rest = l1 ++ l2 ∧ ready done r = true := by
  intro pending
  induction pending with
  | nil => intro r rest h; cases h
  | cons p ps ih =>
    intro r rest h
    by_cases hp : ready done p
    · rw [extractReady, if_pos hp] at h
      obtain ⟨rfl, rfl⟩ : p = r ∧ ps = rest := by
        constructor <;> [exact congrArg Prod.fst (Option.some.inj h);
          exact congrArg Prod.snd (Option.some.inj h)]
      exact ⟨[], ps, rfl, rfl, hp⟩
    · rw [extractReady, if_neg hp] at h
      cases hx : extractReady done ps with
      | none => rw [hx] at h; cases h
      | some v =>
        rw [hx] at h
        obtain ⟨x, rest2⟩ := v
        obtain ⟨rfl, rfl⟩ : x = r ∧ p :: rest2 = rest := by
          constructor <;> [exact congrArg Prod.fst (Option.some.inj h);
            exact congrArg Prod.snd (Option.some.inj h)]
        obtain ⟨l1, l2, hps, hrest2, hready⟩ := ih x rest2 hx
        exact ⟨p :: l1, l2, by rw [hps]; simp, by rw [hrest2]; simp, hready⟩

/-- In a collection with unique IDs, the resource with a given ID is unique. -/
lemma resource_unique (R : List Resource) (hU : uniqueIDs R) :
    ∀ r ∈ R, ∀ s ∈ R, r.id = s.id → r = s := by
  intro r hr s hs h
  exact List.inj_on_of_nodup_map hU hr hs h

/-- Every split of the emitted list places all dependencies of the split
element strictly after it. -/
def SplitInv (R : List Resource) (done : List String) : Prop :=
  ∀ pre a post, done = pre ++ a :: post → ∀ b, edge R a b → b ∈ post

/-- Successful topological emission yields a duplicate-free emitted list that
covers every resource of R and satisfies the split invariant. -/
lemma topoAux_some_inv (R : List Resource) (hU : uniqueIDs R) :
    ∀ fuel done pending out,
      (∀ r ∈ pending, r ∈ R) →
      List.Perm (done ++ ids pending) (ids R) →
      SplitInv R done →
      topoAux fuel done pending = some out →
      ∃ doneF, out = doneF.reverse ∧ doneF.Nodup ∧ SplitInv R doneF ∧
        ∀ r ∈ R, r.id ∈ doneF := by
  intro fuel
  induction fuel with
  | zero =>
    intro done pending out hsub hperm hsplit h
    cases pending with
    | nil =>
      simp only [topoAux, Option.some.injEq] at h
      have hpd : List.Perm done (ids R) := by simpa [ids] using hperm
      refine ⟨done, h.symm, hpd.symm.nodup hU, hsplit, fun r hr => ?_⟩
      exact hpd.symm.subset (List.mem_map_of_mem _ hr)
    | cons p ps => simp [topoAux] at h
  | succ fuel ih =>
    intro done pending out hsub hperm hsplit h
    cases pending with
    | nil =>
      simp only [topoAux, Option.some.injEq] at h
      have hpd : List.Perm done (ids R) := by simpa [ids] using hperm
      refine ⟨done, h.symm, hpd.symm.nodup hU, hsplit, fun r hr => ?_⟩
      exact hpd.symm.subset (List.mem_map_of_mem _ hr)
    | cons p ps =>
      simp only [topoAux] at h
      cases hx : extractReady done (p :: ps) with
      | none => rw [hx] at h; cases h
      | some v =>
        obtain ⟨r0, rest⟩ := v
        rw [hx] at h
        obtain ⟨l1, l2, hpend, hrest, hready⟩ :=
          extractReady_eq_some done (p :: ps) r0 rest hx
        have hr0R : r0 ∈ R := hsub r0 (by rw [hpend]; simp)
        have hsub2 : ∀ r ∈ rest, r ∈ R := by
          intro r hr
          apply hsub
          rw [hpend]
          rw [hrest] at hr
          rcases List.mem_append.mp hr with h1 | h2
          · exact List.mem_append.mpr (Or.inl h1)
          · exact List.mem_append.mpr (Or.inr (List.mem_cons_of_mem _ h2))
        have hperm2 : List.Perm ((r0.id :: done) ++ ids rest) (ids R) := by
          refine List.Perm.trans ?_ hperm
          rw [hpend, hrest]
          simp only [ids, List.map_append, List.map_cons, List.cons_append]
          refine List.Perm.symm ?_
          have h1 := @List.perm_middle String r0.id
            (done ++ l1.map (fun r => r.id)) (l2.map (fun r => r.id))
          simpa [List.append_assoc] using h1
        have hsplit2 : SplitInv R (r0.id :: done) := by
          intro pre a post hsp b hedge
          cases pre with
          | nil =>
            simp only [List.nil_append, List.cons.injEq] at hsp
            obtain ⟨ha, hpost⟩ := hsp
            obtain ⟨r2, hr2R, hr2id, hbdep⟩ := hedge
            have : r2 = r0 := by
              apply resource_unique R hU r2 hr2R r0 hr0R
              rw [hr2id, ← ha]
            subst this
            rw [← hpost]
            have := (List.all_eq_true.mp hready) b (by exact hbdep)
            exact of_decide_eq_true this
          | cons x pre2 =>
            simp only [List.cons_append, List.cons.injEq] at hsp
            exact hsplit pre2 a post hsp.2 b hedge
        exact ih (r0.id :: done) rest out hsub2 hperm2 hsplit2 h

/-- Walking a nonempty dependency chain from an element of the emitted list
always lands strictly after the start. -/
lemma stepsTo_mem_post (R : List Resource) (doneF : List String)
    (hS : SplitInv R doneF) :
    ∀ n a b pre post, doneF = pre ++ a :: post → stepsTo R (n + 1) a b → b ∈ post := by
  intro n
  induction n with
  | zero =>
    intro a b pre post hsp hst
    obtain ⟨c, hedge, hc⟩ := hst
    have hcb : c = b := hc
    exact hcb ▸ hS pre a post hsp c hedge
  | succ n ih =>
    intro a b pre post hsp hst
    obtain ⟨c, hedge, hc⟩ := hst
    have hcpost : c ∈ post := hS pre a post hsp c hedge
    obtain ⟨p1, p2, hpost⟩ := List.append_of_mem hcpost
    have hsp2 : doneF = (pre ++ a :: p1) ++ c :: p2 := by
      rw [hsp, hpost]; simp
    have hb2 : b ∈ p2 := ih c b (pre ++ a :: p1) p2 hsp2 hc
    rw [hpost]
    exact List.mem_append.mpr (Or.inr (List.mem_cons_of_mem _ hb2))

/-- A successful topological sort certifies the absence of dependency cycles. -/
lemma no_cycle_of_topoSort_some (R : List Resource) (hU : uniqueIDs R)
    (out : List String) (h : topoSort R = some out) : ¬ hasCycle R := by
  obtain ⟨doneF, _, hnodup, hsplit, hcover⟩ :=
    topoAux_some_inv R hU R.length [] R out
      (fun r hr => hr) (by simp [ids]) (by intro pre a post hsp; cases pre <;> cases hsp) h
  rintro ⟨a, n, hst⟩
  have hmem : a ∈ doneF := by
    obtain ⟨c, hedge, _⟩ := hst
    obtain ⟨r2, hr2R, hr2id, _⟩ := hedge
    rw [← hr2id]
    exact hcover r2 hr2R
  obtain ⟨pre, post, hsp⟩ := List.append_of_mem hmem
  have hpost : a ∈ post := stepsTo_mem_post R doneF hsplit n a a pre post hsp hst
  rw [hsp] at hnodup
  have : (a :: post).Nodup := (List.nodup_append.mp hnodup).2.1
  exact (List.nodup_cons.mp this).1 hpost

/-- Extracting a ready resource keeps the pending resources inside R, keeps
the permutation invariant with the emitted list, and shortens pending. -/
lemma extract_step_inv (R : List Resource) (done : List String)
    (pending : List Resource) (r0 : Resource) (rest : List Resource)
    (hx : extractReady done pending = some (r0, rest))
    (hsub : ∀ r ∈ pending, r ∈ R)
    (hperm : List.Perm (done ++ ids pending) (ids R)) :
    (∀ r ∈ rest, r ∈ R) ∧ List.Perm ((r0.id :: done) ++ ids rest) (ids R) ∧
      rest.length + 1 = pending.length := by
  obtain ⟨l1, l2, hpend, hrest, _⟩ := extractReady_eq_some done pending r0 rest hx
  refine ⟨?_, ?_, ?_⟩
  · intro r hr
    apply hsub
    rw [hpend]
    rw [hrest] at hr
    rcases List.mem_append.mp hr with h1 | h2
    · exact List.mem_append.mpr (Or.inl h1)
    · exact List.mem_append.mpr (Or.inr (List.mem_cons_of_mem _ h2))
  · refine List.Perm.trans ?_ hperm
    rw [hpend, hrest]
    simp only [ids, List.map_append, List.map_cons, List.cons_append]
    refine List.Perm.symm ?_
    have h1 := @List.perm_middle String r0.id
      (done ++ l1.map (fun r => r.id)) (l2.map (fun r => r.id))
    simpa [List.append_assoc] using h1
  · rw [hpend, hrest]; simp; omega

/-- A failing topological emission with sufficient fuel reaches a stuck
state: a nonempty pending set in which no resource is ready. -/
lemma topoAux_none_stuck (R : List Resource) :
    ∀ fuel done pending,
      pending.length ≤ fuel →
      (∀ r ∈ pending, r ∈ R) →
      List.Perm (done ++ ids pending) (ids R) →
      topoAux fuel done pending = none →
      ∃ done2 pending2, pending2 ≠ [] ∧ (∀ r ∈ pending2, r ∈ R) ∧
        List.Perm (done2 ++ ids pending2) (ids R) ∧
        ∀ r ∈ pending2, ready done2 r = false := by
  intro fuel
  induction fuel with
  | zero =>
    intro done pending hlen hsub hperm h
    have : pending = [] := List.eq_nil_of_length_eq_zero (Nat.le_zero.mp hlen)
    subst this
    simp [topoAux] at h
  | succ fuel ih =>
    intro done pending hlen hsub hperm h
    cases pending with
    | nil => simp [topoAux] at h
    | cons p ps =>
      simp only [topoAux] at h
      cases hx : extractReady done (p :: ps) with
      | none =>
        exact ⟨done, p :: ps, by simp, hsub, hperm,
          extractReady_eq_none done (p :: ps) hx⟩
      | some v =>
        obtain ⟨r0, rest⟩ := v
        rw [hx] at h
        obtain ⟨hsub2, hperm2, hlen2⟩ :=
          extract_step_inv R done (p :: ps) r0 rest hx hsub hperm
        have hfit : rest.length ≤ fuel := by
          simp only [List.length_cons] at hlen2 hlen
          omega
        exact ih (r0.id :: done) rest hfit hsub2 hperm2 h

/-- A nonempty set of IDs in which every element has a dependency edge back
into the set yields a cycle, by iterating an edge choice and pigeonholing. -/
lemma cycle_of_closed (R : List Resource) (S : List String) (hne : S ≠ [])
    (hstep : ∀ a ∈ S, ∃ b, b ∈ S ∧ edge R a b) : hasCycle R := by
  classical
  obtain ⟨s0, hs0⟩ : ∃ s, s ∈ S := by
    cases S with
    | nil => exact absurd rfl hne
    | cons x xs => exact ⟨x, by simp⟩
  let f : {a // a ∈ S} → {a // a ∈ S} :=
    fun x => ⟨(hstep x.1 x.2).choose, (hstep x.1 x.2).choose_spec.1⟩
  have hf : ∀ x : {a // a ∈ S}, edge R x.1 (f x).1 :=
    fun x => (hstep x.1 x.2).choose_spec.2
  let g : Nat → {a // a ∈ S} := fun n => f^[n] ⟨s0, hs0⟩
  have hg : ∀ i, edge R (g i).1 (g (i + 1)).1 := by
    intro i
    have hgi : g (i + 1) = f (g i) := Function.iterate_succ_apply' f i ⟨s0, hs0⟩
    rw [hgi]
    exact hf (g i)
  have hchain : ∀ k i, stepsTo R k (g i).1 (g (i + k)).1 := by
    intro k
    induction k with
    | zero => intro i; show (g i).1 = (g (i + 0)).1; rw [Nat.add_zero]
    | succ k ih =>
      intro i
      refine ⟨(g (i + 1)).1, hg i, ?_⟩
      have := ih (i + 1)
      rwa [show i + 1 + k = i + (k + 1) by omega] at this
  have key : ∀ i j : Nat, i < j → (g i).1 = (g j).1 → hasCycle R := by
    intro i j hlt he
    refine ⟨(g i).1, j - i - 1, ?_⟩
    have hc := hchain (j - i) i
    rw [show i + (j - i) = j by omega] at hc
    rw [← he] at hc
    rwa [show j - i = j - i - 1 + 1 by omega] at hc
  have hcard : S.toFinset.card < (Finset.univ : Finset (Fin (S.length + 1))).card := by
    rw [Finset.card_univ, Fintype.card_fin]
    exact Nat.lt_succ_of_le (List.toFinset_card_le S)
  obtain ⟨i, _, j, _, hij, heq⟩ :=
    Finset.exists_ne_map_eq_of_card_lt_of_maps_to hcard
      (f := fun i : Fin (S.length + 1) => (g i.1).1)
      (fun i _ => List.mem_toFinset.mpr (g i.1).2)
  rcases Nat.lt_trichotomy i.1 j.1 with hlt | heqn | hgt
  · exact key i.1 j.1 hlt heq
  · exact absurd (Fin.ext heqn) hij
  · exact key j.1 i.1 hgt heq.symm

/-- A stuck state yields a cycle when the collection has no dangling edges. -/
lemma cycle_of_stuck (R : List Resource) (hD : noDangling R)
    (done2 : List String) (pending2 : List Resource) (hne : pending2 ≠ [])
    (hsub : ∀ r ∈ pending2, r ∈ R)
    (hperm : List.Perm (done2 ++ ids pending2) (ids R))
    (hstuck : ∀ r ∈ pending2, ready done2 r = false) : hasCycle R := by
  apply cycle_of_closed R (ids pending2)
  · intro h
    exact hne (List.map_eq_nil_iff.mp h)
  · intro a ha
    obtain ⟨r, hr, rfl⟩ := List.mem_map.mp ha
    have hnr : ready done2 r = false := hstuck r hr
    have hnall : ¬ (∀ d ∈ r.dependsOn, d ∈ done2) := by
      intro hall
      have : ready done2 r = true :=
        List.all_eq_true.mpr (fun d hd => decide_eq_true (hall d hd))
      rw [this] at hnr
      cases hnr
    push_neg at hnall
    obtain ⟨d, hd, hnd⟩ := hnall
    refine ⟨d, ?_, ⟨r, hsub r hr, rfl, hd⟩⟩
    have hdR : d ∈ ids R := hD r (hsub r hr) d hd
    have hmem : d ∈ done2 ++ ids pending2 := hperm.symm.subset hdR
    rcases List.mem_append.mp hmem with h1 | h2
    · exact absurd h1 hnd
    · exact h2

/-- The topological emission succeeds exactly on acyclic collections. -/
lemma topoSort_isSome_iff (R : List Resource) (hU : uniqueIDs R)
    (hD : noDangling R) : (topoSort R).isSome = true ↔ ¬ hasCycle R := by
  constructor
  · intro h
    obtain ⟨out, hout⟩ := Option.isSome_iff_exists.mp h
    exact no_cycle_of_topoSort_some R hU out hout
  · intro hnc
    by_contra h
    have hnone : topoSort R = none := by
      cases hx : topoSort R with
      | none => rfl
      | some v => rw [hx] at h; cases h rfl
    obtain ⟨d2, p2, hne2, hs2, hp2, hst2⟩ :=
      topoAux_none_stuck R R.length [] R le_rfl (fun r hr => hr)
        (by simp [ids]) hnone
    exact hnc (cycle_of_stuck R hD d2 p2 hne2 hs2 hp2 hst2)

/-- Success test for a fallible computation. -/
def exceptOk {ε α : Type} : Except ε α → Bool
  | .ok _ => true
  | .error _ => false

/-- C2: for every collection R of Resources, BuildGraph(R) succeeds if and
only if R has pairwise-unique IDs, every DependsOn entry resolves to the ID
of another resource in R, and the dependency relation is acyclic; and when it
fails, it fails with exactly the error kind matching the violation:
DuplicateID for a shared ID, DanglingDependency for an unresolved DependsOn
entry, CyclicDependency for a cycle. -/
theorem buildGraph_ok_iff_valid (R : List Resource) :
    (exceptOk (buildGraph R) = true ↔ uniqueIDs R ∧ noDangling R ∧ ¬ hasCycle R)
    ∧ (buildGraph R = .error .duplicateID ↔ ¬ uniqueIDs R)
    ∧ (buildGraph R = .error .danglingDependency ↔ uniqueIDs R ∧ ¬ noDangling R)
    ∧ (buildGraph R = .error .cyclicDependency ↔
        uniqueIDs R ∧ noDangling R ∧ hasCycle R) := by
  by_cases h1 : (ids R).Nodup
  · by_cases h2 : ∀ r ∈ R, ∀ d ∈ r.dependsOn, d ∈ ids R
    · have hU : uniqueIDs R := h1
      have hD : noDangling R := h2
      have hbg1 : buildGraph R =
          match topoSort R with
          | some order => .ok order
          | none => .error .cyclicDependency := by
        rw [buildGraph, if_neg (not_not_intro h1), if_neg (not_not_intro h2)]
      cases h3 : topoSort R with
      | some order =>
        rw [h3] at hbg1
        have hnc : ¬ hasCycle R :=
          (topoSort_isSome_iff R hU hD).mp (by rw [h3]; rfl)
        refine ⟨?_, ?_, ?_, ?_⟩ <;> simp [hbg1, exceptOk, hU, hD, hnc]
      | none =>
        rw [h3] at hbg1
        have hc : hasCycle R := by
          by_contra hnc
          have := (topoSort_isSome_iff R hU hD).mpr hnc
          rw [h3] at this
          cases this
        refine ⟨?_, ?_, ?_, ?_⟩ <;> simp [hbg1, exceptOk, hU, hD, hc]
    · have hD : ¬ noDangling R := h2
      have hU : uniqueIDs R := h1
      have hbg1 : buildGraph R = .error .danglingDependency := by
        rw [buildGraph, if_neg (not_not_intro h1), if_pos h2]
      refine ⟨?_, ?_, ?_, ?_⟩ <;> simp [hbg1, exceptOk, hU, hD]
  · have hU : ¬ uniqueIDs R := h1
    have hbg1 : buildGraph R = .error .duplicateID := by
      rw [buildGraph, if_pos h1]
    refine ⟨?_, ?_, ?_, ?_⟩ <;> simp [hbg1, exceptOk, hU]

/-- The per-resource actions a Plan can assign. -/
inductive Action where
  | create : Action
  | update : Action
  | delete : Action
  | noop : Action
deriving DecidableEq

/-- Find the resource carrying the given ID. -/
def findByID (R : List Resource) (i : String) : Option Resource :=
  R.find? (fun r => r.id == i)

/-- Modelled from the spec: the Spec/State differ (spec section 4.2) is
absent from src. For an ID present only in desired it plans Create; present
only in last, Delete; present in both with unchanged Type, Update when the
Attributes differ under deep key-order-insensitive comparison and NoOp
otherwise; present in both with a changed Type, Delete of the old plus
Create of the new, never Update. -/
def diffActions (desired last : List Resource) (i : String) : List Action :=
  match findByID desired i, findByID last i with
  | some d, some l =>
    if d.type ≠ l.type then [.delete, .create]
    else if attrsEq d.attributes l.attributes then [.noop] else [.update]
  | some _, none => [.create]
  | none, some _ => [.delete]
  | none, none => []

/-- An absent ID makes the find fail. -/
lemma findByID_eq_none_iff (R : List Resource) (i : String) :
    findByID R i = none ↔ i ∉ ids R := by
  rw [findByID, List.find?_eq_none]
  constructor
  · intro h hmem
    obtain ⟨r, hr, hid⟩ := List.mem_map.mp hmem
    exact h r hr (by simp [hid])
  · intro h r hr hc
    have hid : r.id = i := by simpa using hc
    exact h (List.mem_map.mpr ⟨r, hr, hid⟩)

/-- With unique IDs, the find returns exactly the member resource. -/
lemma findByID_eq_some_of_mem (R : List Resource) (hU : uniqueIDs R) :
    ∀ r ∈ R, findByID R r.id = some r := by
  induction R with
  | nil => intro r hr; cases hr
  | cons x xs ih =>
    intro r hr
    rcases List.mem_cons.mp hr with rfl | hr2
    · simp [findByID]
    · have hne : x.id ≠ r.id := by
        intro he
        have : r.id ∈ ids xs := List.mem_map.mpr ⟨r, hr2, rfl⟩
        rw [← he] at this
        exact (List.nodup_cons.mp hU).1 this
      rw [findByID, List.find?]
      rw [show (x.id == r.id) = false from beq_eq_false_iff_ne.mpr hne]
      exact ih (List.nodup_cons.mp hU).2 r hr2

/-- C3 (amended): with unique IDs on each side, the differ assigns an ID
present only in desired the single action Create, an ID present only in
last the single action Delete, an ID present in both with unchanged Type
exactly one of Update (Attributes differ under deep key-order-insensitive
comparison) or NoOp, an ID present in both whose Type changed the pair
Delete plus Create rather than a single action, and an ID present in
neither no action. -/
theorem diffActions_partition (desired last : List Resource)
    (hU1 : uniqueIDs desired) (hU2 : uniqueIDs last) (i : String) :
    (i ∉ ids desired → i ∉ ids last → diffActions desired last i = [])
    ∧ (∀ d ∈ desired, d.id = i → i ∉ ids last →
        diffActions desired last i = [.create])
    ∧ (i ∉ ids desired → ∀ l ∈ last, l.id = i →
        diffActions desired last i = [.delete])
    ∧ (∀ d ∈ desired, d.id = i → ∀ l ∈ last, l.id = i →
        diffActions desired last i =
          if d.type ≠ l.type then [.delete, .create]
          else if attrsEq d.attributes l.attributes then [.noop]
          else [.update]) := by
  refine ⟨?_, ?_, ?_, ?_⟩
  · intro h1 h2
    unfold diffActions
    rw [(findByID_eq_none_iff desired i).mpr h1, (findByID_eq_none_iff last i).mpr h2]
  · intro d hd hdi h2
    have hf : findByID desired i = some d := by
      rw [← hdi]; exact findByID_eq_some_of_mem desired hU1 d hd
    unfold diffActions
    rw [hf, (findByID_eq_none_iff last i).mpr h2]
  · intro h1 l hl hli
    have hf : findByID last i = some l := by
      rw [← hli]; exact findByID_eq_some_of_mem last hU2 l hl
    unfold diffActions
    rw [(findByID_eq_none_iff desired i).mpr h1, hf]
  · intro d hd hdi l hl hli
    have hf1 : findByID desired i = some d := by
      rw [← hdi]; exact findByID_eq_some_of_mem desired hU1 d hd
    have hf2 : findByID last i = some l := by
      rw [← hli]; exact findByID_eq_some_of_mem last hU2 l hl
    unfold diffActions
    rw [hf1, hf2]

/-- Latest revision the store has allocated for a (project, workspace)
pair, zero when the pair is new. -/
def lookupLatest (s : List ((String × String) × Nat)) (p w : String) : Nat :=
  match s.find? (fun e => e.1 == (p, w)) with
  | some e => e.2
  | none => 0

/-- Modelled from the spec: the Release store's revision allocator is absent
from src. Per the Release.Revision doc comment in types.go, revisions
auto-increase from one under per Project and Workspace; the allocator takes
the full (project, workspace, stack) triple of a new Release but keys the
sequence by the (project, workspace) pair alone. -/
def allocateRevision (s : List ((String × String) × Nat))
    (p w _stack : String) : Nat × List ((String × String) × Nat) :=
  (lookupLatest s p w + 1, ((p, w), lookupLatest s p w + 1) :: s)

/-- Run a sequence of Release-creation requests, each a (project, workspace,
stack) triple, recording the revision allocated to each. -/
def allocTrace (s : List ((String × String) × Nat)) :
    List (String × String × String) → List ((String × String × String) × Nat)
  | [] => []
  | req :: rest =>
    let rs := allocateRevision s req.1 req.2.1 req.2.2
    (req, rs.1) :: allocTrace rs.2 rest

/-- The revisions allocated to the requests of one (project, workspace)
pair, in creation order, starting from an empty store. -/
def revisionsFor (reqs : List (String × String × String)) (p w : String) :
    List Nat :=
  ((allocTrace [] reqs).filter
    (fun e => e.1.1 == p && e.1.2.1 == w)).map (fun e => e.2)

/-- The number of requests for a (project, workspace) pair. -/
def countFor (reqs : List (String × String × String)) (p w : String) : Nat :=
  (reqs.filter (fun r => r.1 == p && r.2.1 == w)).length

/-- A store entry for the exact pair is found first. -/
lemma lookupLatest_cons_self (s : List ((String × String) × Nat))
    (p w : String) (n : Nat) :
    lookupLatest (((p, w), n) :: s) p w = n := by
  rw [lookupLatest, List.find?]
  simp

/-- A store entry for a different pair is skipped. -/
lemma lookupLatest_cons_other (s : List ((String × String) × Nat))
    (p w a b : String) (n : Nat) (h : ¬ (a = p ∧ b = w)) :
    lookupLatest (((a, b), n) :: s) p w = lookupLatest s p w := by
  rw [lookupLatest, List.find?]
  have hne : (((a, b) : String × String) == (p, w)) = false := by
    simp only [beq_eq_false_iff_ne, ne_eq, Prod.mk.injEq]
    exact fun hc => h ⟨hc.1, hc.2⟩
  rw [hne]
  rfl

/-- Each (project, workspace) pair receives consecutive revisions continuing
from the latest one its store entry records. -/
lemma allocTrace_filter (p w : String) :
    ∀ (reqs : List (String × String × String))
      (s : List ((String × String) × Nat)),
      ((allocTrace s reqs).filter
          (fun e => e.1.1 == p && e.1.2.1 == w)).map (fun e => e.2)
        = List.range' (lookupLatest s p w + 1)
            ((reqs.filter (fun r => r.1 == p && r.2.1 == w)).length) := by
  intro reqs
  induction reqs with
  | nil => intro s; simp [allocTrace]
  | cons req rest ih =>
    intro s
    by_cases hm : (req.1 == p && req.2.1 == w) = true
    · obtain ⟨hp, hw⟩ : req.1 = p ∧ req.2.1 = w := by
        have := Bool.and_eq_true_iff.mp hm
        exact ⟨beq_iff_eq.mp this.1, beq_iff_eq.mp this.2⟩
      rw [allocTrace]
      simp only [allocateRevision]
      rw [List.filter_cons, if_pos (by simpa using hm)]
      rw [List.filter_cons, if_pos hm]
      simp only [List.map_cons, List.length_cons]
      rw [ih, hp, hw, lookupLatest_cons_self]
      rw [List.range'_succ (lookupLatest s p w + 1) _ 1]
    · have hm2 : ¬ (req.1 = p ∧ req.2.1 = w) := by
        intro hc
        exact hm (by simp [hc.1, hc.2])
      rw [allocTrace]
      simp only [allocateRevision]
      rw [List.filter_cons, if_neg (by simpa using hm)]
      rw [List.filter_cons, if_neg hm]
      rw [ih, lookupLatest_cons_other s p w req.1 req.2.1 _ hm2]

/-- C1 (amended): starting from an empty store, the revisions allocated for
each (Project, Workspace) pair form exactly the strictly increasing sequence
1, 2, 3, ... regardless of the Stack of each request, so no two Releases of
one pair (a fortiori of one (Project, Workspace, Stack) triple) share a
revision. -/
theorem revisionsFor_consecutive (reqs : List (String × String × String))
    (p w : String) :
    revisionsFor reqs p w = List.range' 1 (countFor reqs p w)
    ∧ (revisionsFor reqs p w).Nodup := by
  have h := allocTrace_filter p w reqs []
  have h1 : revisionsFor reqs p w = List.range' 1 (countFor reqs p w) := by
    rw [revisionsFor, countFor]
    simpa [lookupLatest] using h
  refine ⟨h1, ?_⟩
  rw [h1]
  exact List.nodup_range' 1 _

/-- C1 counterexample: revision sequences are not independent per Stack. The
very first Release of the triple ("p", "w", "s2") is allocated revision 2,
not 1, because a Release of ("p", "w", "s1") came first and the sequence is
scoped to the (Project, Workspace) pair. -/
theorem revision_not_per_stack :
    (allocateRevision (allocateRevision [] "p" "w" "s1").2 "p" "w" "s2").1 ≠ 1 := by
  decide

/-- ReleasePhase, translated from types.go: the phase of a Release. -/
inductive ReleasePhase where
  | generating : ReleasePhase
  | previewing : ReleasePhase
  | applying : ReleasePhase
  | destroying : ReleasePhase
  | succeeded : ReleasePhase
  | failed : ReleasePhase
deriving DecidableEq, Fintype

/-- The string literal of each phase constant declared in types.go. -/
def ReleasePhase.literal : ReleasePhase → String
  | .generating => "generating"
  | .previewing => "previewing"
  | .applying => "applying"
  | .destroying => "destroying"
  | .succeeded => "succeeded"
  | .failed => "failed"

/-- All declared phases, in declaration order. -/
def allPhases : List ReleasePhase :=
  [.generating, .previewing, .applying, .destroying, .succeeded, .failed]

/-- Modelled from the spec: the Release phase transition relation of spec
section 4.3 is absent from src. Generating moves to previewing, applying or
destroying; previewing, applying and destroying move to succeeded or failed;
succeeded and failed are terminal. -/
def phaseTransition : ReleasePhase → ReleasePhase → Bool
  | .generating, .previewing => true
  | .generating, .applying => true
  | .generating, .destroying => true
  | .previewing, .succeeded => true
  | .previewing, .failed => true
  | .applying, .succeeded => true
  | .applying, .failed => true
  | .destroying, .succeeded => true
  | .destroying, .failed => true
  | _, _ => false

/-- C4: the Release Phase ranges over exactly the six declared string
literals, every phase is among the six, no transition leaves succeeded or
failed, and a phase has an outgoing transition exactly when it is neither
succeeded nor failed, making these two the only terminal phases. -/
theorem releasePhase_literals_and_terminality :
    (allPhases.map ReleasePhase.literal
      = ["generating", "previewing", "applying", "destroying",
         "succeeded", "failed"])
    ∧ (allPhases.map ReleasePhase.literal).Nodup
    ∧ (∀ p : ReleasePhase, p ∈ allPhases)
    ∧ (∀ q : ReleasePhase, phaseTransition .succeeded q = false)
    ∧ (∀ q : ReleasePhase, phaseTransition .failed q = false)
    ∧ (∀ p : ReleasePhase, (∃ q, phaseTransition p q = true)
        ↔ ¬ (p = .succeeded ∨ p = .failed)) := by
  refine ⟨by decide, by decide, by decide, by decide, by decide, by decide⟩

/-- AlicloudProvider, translated from types.go. -/
structure AlicloudProvider where
  region : String

/-- AWSProvider, translated from types.go. -/
structure AWSProvider where
  region : String
  profile : String

/-- VaultProvider, translated from types.go. -/
structure VaultProvider where
  server : String
  path : Option String
  version : String

/-- AzureKVProvider, translated from types.go. -/
structure AzureKVProvider where
  vaultURL : Option String
  tenantID : Option String
  environmentType : String

/-- FakeProviderData, translated from types.go. -/
structure FakeProviderData where
  key : String
  value : String
  valueMap : List (String × String)
  version : String

/-- FakeProvider, translated from types.go. -/
structure FakeProvider where
  data : List FakeProviderData

/-- ProviderSpec, translated from types.go: five optional provider configs,
one per supported secret store. -/
structure ProviderSpec where
  alicloud : Option AlicloudProvider
  aws : Option AWSProvider
  vault : Option VaultProvider
  azure : Option AzureKVProvider
  fake : Option FakeProvider

/-- SecretStoreSpec, translated from types.go. -/
structure SecretStoreSpec where
  provider : Option ProviderSpec

/-- The fatal configuration error kind of spec section 7. -/
inductive ConfigErrorKind where
  | configurationError : ConfigErrorKind
deriving DecidableEq

/-- The names of the providers configured in a ProviderSpec, in field order. -/
def configuredProviders (p : ProviderSpec) : List String :=
  (if p.alicloud.isSome then ["alicloud"] else [])
  ++ (if p.aws.isSome then ["aws"] else [])
  ++ (if p.vault.isSome then ["vault"] else [])
  ++ (if p.azure.isSome then ["azure"] else [])
  ++ (if p.fake.isSome then ["fake"] else [])

/-- Modelled from the spec: ProviderSpec validation (spec section 4.5) is
absent from src. Exactly one of the five providers must be configured;
configuring zero or several is a configuration error, surfaced before any
Release is created. -/
def validateProviderSpec (p : ProviderSpec) : Except ConfigErrorKind Unit :=
  match configuredProviders p with
  | [_] => .ok ()
  | _ => .error .configurationError

/-- The number of configured providers of a ProviderSpec. -/
def configuredCount (p : ProviderSpec) : Nat :=
  (cond p.alicloud.isSome 1 0) + (cond p.aws.isSome 1 0)
  + (cond p.vault.isSome 1 0) + (cond p.azure.isSome 1 0)
  + (cond p.fake.isSome 1 0)

/-- C5: a ProviderSpec passes validation exactly when exactly one of its
five provider fields is configured, and is rejected with a configuration
error exactly when zero or at least two providers are configured. -/
theorem validateProviderSpec_exactly_one (p : ProviderSpec) :
    (exceptOk (validateProviderSpec p) = true ↔ configuredCount p = 1)
    ∧ (validateProviderSpec p = .error .configurationError
        ↔ (configuredCount p = 0 ∨ 2 ≤ configuredCount p)) := by
  obtain ⟨a, b, c, d, e⟩ := p
  cases a <;> cases b <;> cases c <;> cases d <;> cases e <;>
    simp [validateProviderSpec, configuredProviders, configuredCount, exceptOk]

/-- GenericConfig, translated from types.go: a string-keyed config mapping. -/
def GenericConfig : Type := List (String × Value)

/-- ModulePatcherConfig, translated from types.go: module inputs plus the
selected project names. -/
structure ModulePatcherConfig where
  genericConfig : GenericConfig
  projectSelector : List String

/-- Configs, translated from types.go: the default block plus the patcher
blocks keyed by patcher name. -/
structure Configs where
  default : GenericConfig
  modulePatcherConfigs : List (String × ModulePatcherConfig)

/-- ModuleConfig, translated from types.go. -/
structure ModuleConfig where
  path : String
  version : String
  configs : Configs

/-- Some project name is selected by two different patcher blocks. -/
def doublySelected (c : Configs) : Bool :=
  c.modulePatcherConfigs.any (fun e =>
    e.2.projectSelector.any (fun proj =>
      c.modulePatcherConfigs.any (fun e2 =>
        e2.1 != e.1 && decide (proj ∈ e2.2.projectSelector))))

/-- Modelled from the spec: ModuleConfig validation is absent from src. Per
the ModuleConfig doc comment in types.go, a project can only be assigned in
one patcher's projectSelector field; assignment in multiple patchers is not
allowed. -/
def validateModuleConfig (mc : ModuleConfig) : Except ConfigErrorKind Unit :=
  if doublySelected mc.configs then .error .configurationError else .ok ()

/-- Modelled from the spec: the per-project config lookup is absent from
src. Per the types.go doc comment, a project not specified in any patcher
block's projectSelector uses the default config. -/
def getProjectModuleConfig (c : Configs) (project : String) : GenericConfig :=
  match c.modulePatcherConfigs.find?
      (fun e => decide (project ∈ e.2.projectSelector)) with
  | some e => e.2.genericConfig
  | none => c.default

/-- C6: module config validation rejects with a configuration error exactly
when some project name appears in the selectors of two different patcher
blocks, and a project selected by no patcher block uses the default block. -/
theorem moduleConfig_selector_unique (mc : ModuleConfig) :
    (validateModuleConfig mc = .error .configurationError
      ↔ ∃ e1 ∈ mc.configs.modulePatcherConfigs,
          ∃ proj ∈ e1.2.projectSelector,
            ∃ e2 ∈ mc.configs.modulePatcherConfigs,
              e2.1 ≠ e1.1 ∧ proj ∈ e2.2.projectSelector)
    ∧ (∀ proj, (∀ e ∈ mc.configs.modulePatcherConfigs,
          proj ∉ e.2.projectSelector) →
        getProjectModuleConfig mc.configs proj = mc.configs.default) := by
  constructor
  · have hds : doublySelected mc.configs = true
        ↔ ∃ e1 ∈ mc.configs.modulePatcherConfigs,
            ∃ proj ∈ e1.2.projectSelector,
              ∃ e2 ∈ mc.configs.modulePatcherConfigs,
                e2.1 ≠ e1.1 ∧ proj ∈ e2.2.projectSelector := by
      simp [doublySelected, List.any_eq_true, bne_iff_ne]
    rw [validateModuleConfig]
    by_cases hd : doublySelected mc.configs
    · rw [if_pos hd]
      exact iff_of_true rfl (hds.mp hd)
    · rw [if_neg hd]
      refine iff_of_false (fun hc => Except.noConfusion hc) (fun hex => hd (hds.mpr hex))
  · intro proj h
    have hfind : mc.configs.modulePatcherConfigs.find?
        (fun e => decide (proj ∈ e.2.projectSelector)) = none := by
      rw [List.find?_eq_none]
      intro e he
      simpa using h e he
    unfold getProjectModuleConfig
    rw [hfind]

/-- A module config whose two patchers p1 and p2 both select project foo,
the scenario of spec section 8. -/
def fooModuleConfig : ModuleConfig :=
  { path := "ghcr.io/kusionstack/mysql", version := "0.1.0",
    configs :=
      { default := [("instanceType", Value.vstr "db.t3.micro")],
        modulePatcherConfigs :=
          [("p1", { genericConfig := [], projectSelector := ["foo"] }),
           ("p2", { genericConfig := [], projectSelector := ["foo"] })] } }

/-- Witness: the module config whose patchers p1 and p2 both select foo is
rejected with a configuration error, and the unselected project bar uses the
default block. -/
theorem moduleConfig_selector_unique_witness :
    validateModuleConfig fooModuleConfig = .error .configurationError
    ∧ getProjectModuleConfig fooModuleConfig.configs "bar"
        = fooModuleConfig.configs.default := by
  constructor
  · refine (moduleConfig_selector_unique fooModuleConfig).1.mpr ?_
    refine ⟨("p1", { genericConfig := [], projectSelector := ["foo"] }),
      List.mem_cons_self _ _, "foo", List.mem_cons_self _ _,
      ("p2", { genericConfig := [], projectSelector := ["foo"] }),
      List.mem_cons_of_mem _ (List.mem_cons_self _ _), ?_, List.mem_cons_self _ _⟩
    decide
  · refine (moduleConfig_selector_unique fooModuleConfig).2 "bar" ?_
    intro e he
    rcases List.mem_cons.mp he with rfl | he2
    · decide
    · rcases List.mem_cons.mp he2 with rfl | he3
      · decide
      · cases he3

/-- Serialize a Resource to its persisted key-value record, following the
yaml and json struct tags in types.go: id, type and attributes are always
present; dependsOn and extensions carry omitempty and are omitted when
empty. -/
def serializeResource (r : Resource) : List (String × Value) :=
  [("id", .vstr r.id), ("type", .vstr r.type), ("attributes", .vobj r.attributes)]
  ++ (if r.dependsOn.isEmpty then []
      else [("dependsOn", .varr (r.dependsOn.map Value.vstr))])
  ++ (if r.extensions.isEmpty then []
      else [("extensions", .vobj r.extensions)])

/-- Look up a key of a serialized record. -/
def lookupKey (kv : List (String × Value)) (k : String) : Option Value :=
  match kv.find? (fun e => e.1 == k) with
  | some e => some e.2
  | none => none

/-- Decode a list of string values. -/
def decodeStrings : List Value → Option (List String)
  | [] => some []
  | .vstr s :: rest =>
    match decodeStrings rest with
    | some l => some (s :: l)
    | none => none
  | _ :: _ => none

/-- Deserialize a Resource from its persisted key-value record; absent
omitempty fields decode to their empty values. -/
def deserializeResource (kv : List (String × Value)) : Option Resource :=
  match lookupKey kv "id", lookupKey kv "type", lookupKey kv "attributes" with
  | some (.vstr i), some (.vstr t), some (.vobj attrs) =>
    let dep : Option (List String) :=
      match lookupKey kv "dependsOn" with
      | none => some []
      | some (.varr vs) => decodeStrings vs
      | some _ => none
    let ext : Option (List (String × Value)) :=
      match lookupKey kv "extensions" with
      | none => some []
      | some (.vobj e) => some e
      | some _ => none
    match dep, ext with
    | some d, some e =>
      some { id := i, type := t, attributes := attrs, dependsOn := d,
             extensions := e }
    | _, _ => none
  | _, _, _ => none

/-- Encoded string lists decode to themselves. -/
lemma decodeStrings_map (l : List String) :
    decodeStrings (l.map Value.vstr) = some l := by
  induction l with
  | nil => rfl
  | cons x xs ih => simp [decodeStrings, ih]

/-- Cons form of the string-list decoding round trip. -/
lemma decodeStrings_cons_map (x : String) (xs : List String) :
    decodeStrings (Value.vstr x :: xs.map Value.vstr) = some (x :: xs) := by
  simp [decodeStrings, decodeStrings_map]

/-- Serializing then deserializing a Resource reproduces it. -/
lemma deserialize_serialize_resource (r : Resource) :
    deserializeResource (serializeResource r) = some r := by
  obtain ⟨i, t, attrs, dep, ext⟩ := r
  cases dep <;> cases ext <;>
    simp [serializeResource, deserializeResource, lookupKey, List.find?,
      decodeStrings_map, decodeStrings_cons_map]

/-- Release, translated from types.go: Project, Workspace, Revision, Stack,
optional Spec and State pointers, Phase (a string type in Go), and the two
times, modelled as integral timestamps. -/
structure Release where
  project : String
  workspace : String
  revision : Nat
  stack : String
  spec : Option Spec
  state : Option State
  phase : String
  createTime : Nat
  modifiedTime : Nat

/-- Encode an optional Spec pointer: null when nil. -/
def serializeSpecVal : Option Spec → Value
  | none => .vnull
  | some s => .vobj
      [("resources", .varr (s.resources.map (fun r => .vobj (serializeResource r))))]

/-- Encode an optional State pointer: null when nil. -/
def serializeStateVal : Option State → Value
  | none => .vnull
  | some s => .vobj
      [("resources", .varr (s.resources.map (fun r => .vobj (serializeResource r))))]

/-- Serialize a Release to its persisted key-value record, following the
yaml and json struct tags in types.go: all fields but modifiedTime are
always present; modifiedTime carries omitempty and is omitted when zero. -/
def serializeRelease (rel : Release) : List (String × Value) :=
  [("project", .vstr rel.project), ("workspace", .vstr rel.workspace),
   ("revision", .vint rel.revision), ("stack", .vstr rel.stack),
   ("spec", serializeSpecVal rel.spec), ("state", serializeStateVal rel.state),
   ("phase", .vstr rel.phase), ("createTime", .vint rel.createTime)]
  ++ (if rel.modifiedTime = 0 then []
      else [("modifiedTime", .vint rel.modifiedTime)])

/-- Decode a list of serialized resources. -/
def decodeResources : List Value → Option (List Resource)
  | [] => some []
  | .vobj kv :: rest =>
    match deserializeResource kv, decodeResources rest with
    | some r, some rs => some (r :: rs)
    | _, _ => none
  | _ :: _ => none

/-- Decode an optional Spec pointer. -/
def decodeSpecVal : Value → Option (Option Spec)
  | .vnull => some none
  | .vobj kv =>
    (match lookupKey kv "resources" with
     | some (.varr vs) =>
       match decodeResources vs with
       | some rs => some (some { resources := rs })
       | none => none
     | _ => none)
  | _ => none

/-- Decode an optional State pointer. -/
def decodeStateVal : Value → Option (Option State)
  | .vnull => some none
  | .vobj kv =>
    (match lookupKey kv "resources" with
     | some (.varr vs) =>
       match decodeResources vs with
       | some rs => some (some { resources := rs })
       | none => none
     | _ => none)
  | _ => none

/-- Deserialize a Release from its persisted key-value record; an absent
modifiedTime decodes to zero. -/
def deserializeRelease (kv : List (String × Value)) : Option Release :=
  match lookupKey kv "project", lookupKey kv "workspace", lookupKey kv "revision",
        lookupKey kv "stack", lookupKey kv "phase", lookupKey kv "createTime" with
  | some (.vstr proj), some (.vstr ws), some (.vint rev), some (.vstr st),
    some (.vstr ph), some (.vint ct) =>
    match lookupKey kv "spec", lookupKey kv "state" with
    | some specv, some statev =>
      (match decodeSpecVal specv, decodeStateVal statev with
       | some sp, some sta =>
         (match lookupKey kv "modifiedTime" with
          | none =>
            some { project := proj, workspace := ws, revision := rev.toNat,
                   stack := st, spec := sp, state := sta, phase := ph,
                   createTime := ct.toNat, modifiedTime := 0 }
          | some (.vint m) =>
            some { project := proj, workspace := ws, revision := rev.toNat,
                   stack := st, spec := sp, state := sta, phase := ph,
                   createTime := ct.toNat, modifiedTime := m.toNat }
          | some _ => none)
       | _, _ => none)
    | _, _ => none
  | _, _, _, _, _, _ => none

/-- Encoded resource lists decode to themselves. -/
lemma decodeResources_map (rs : List Resource) :
    decodeResources (rs.map (fun r => Value.vobj (serializeResource r))) = some rs := by
  induction rs with
  | nil => rfl
  | cons x xs ih => simp [decodeResources, deserialize_serialize_resource, ih]

/-- Encoded optional Specs decode to themselves. -/
lemma decodeSpecVal_serialize (s : Option Spec) :
    decodeSpecVal (serializeSpecVal s) = some s := by
  cases s with
  | none => rfl
  | some sp =>
    simp [serializeSpecVal, decodeSpecVal, lookupKey, List.find?,
      decodeResources_map]

/-- Encoded optional States decode to themselves. -/
lemma decodeStateVal_serialize (s : Option State) :
    decodeStateVal (serializeStateVal s) = some s := by
  cases s with
  | none => rfl
  | some sp =>
    simp [serializeStateVal, decodeStateVal, lookupKey, List.find?,
      decodeResources_map]

/-- Serializing then deserializing a Release reproduces it. -/
lemma deserialize_serialize_release (rel : Release) :
    deserializeRelease (serializeRelease rel) = some rel := by
  obtain ⟨proj, ws, rev, st, sp, sta, ph, ct, mt⟩ := rel
  by_cases hmt : mt = 0
  · subst hmt
    simp [serializeRelease, deserializeRelease, lookupKey, List.find?,
      decodeSpecVal_serialize, decodeStateVal_serialize]
  · rw [serializeRelease, if_neg hmt]
    simp [deserializeRelease, lookupKey, List.find?,
      decodeSpecVal_serialize, decodeStateVal_serialize]

/-- C7 (amended): every serialized Resource record carries exactly the
stable names id, type, attributes, plus dependsOn and extensions exactly
when those omitempty fields are nonempty; every serialized Release record
carries exactly the stable names project, workspace, revision, stack, spec,
state, phase, createTime, plus modifiedTime exactly when that omitempty
field is nonzero; and serializing then deserializing a Resource or a
Release reproduces the original value. -/
theorem serialization_stable_names (r : Resource) (rel : Release) :
    ((serializeResource r).map Prod.fst
      = ["id", "type", "attributes"]
        ++ (if r.dependsOn.isEmpty then [] else ["dependsOn"])
        ++ (if r.extensions.isEmpty then [] else ["extensions"]))
    ∧ deserializeResource (serializeResource r) = some r
    ∧ ((serializeRelease rel).map Prod.fst
      = ["project", "workspace", "revision", "stack", "spec", "state",
         "phase", "createTime"]
        ++ (if rel.modifiedTime = 0 then [] else ["modifiedTime"]))
    ∧ deserializeRelease (serializeRelease rel) = some rel := by
  refine ⟨?_, deserialize_serialize_resource r, ?_,
    deserialize_serialize_release rel⟩
  · rcases r with ⟨i, t, attrs, dep, ext⟩
    cases dep <;> cases ext <;> simp [serializeResource]
  · by_cases hmt : rel.modifiedTime = 0 <;>
      simp [serializeRelease, hmt]

/-- A Resource with empty DependsOn and Extensions, whose serialized record
therefore omits both omitempty fields. -/
def bareResource : Resource :=
  { id := "apps/v1:Deployment:default:app", type := "Kubernetes",
    attributes := [("replicas", Value.vint 2)], dependsOn := [],
    extensions := [] }

/-- C7 counterexample: the serialized record of a Resource with empty
DependsOn does not carry the field name dependsOn, so not every serialized
Resource record has exactly the five stable field names. -/
theorem serialized_resource_names_not_exact :
    "dependsOn" ∉ (serializeResource bareResource).map Prod.fst := by
  decide

/-- KubernetesConfig, translated from types.go. -/
structure KubernetesConfig where
  kubeConfig : String

/-- ProviderConfig, translated from types.go. -/
structure ProviderConfig where
  source : String
  version : String
  genericConfig : GenericConfig

/-- RuntimeConfigs, translated from types.go: the kubernetes config plus
the terraform provider configs keyed by provider name. -/
structure RuntimeConfigs where
  kubernetes : Option KubernetesConfig
  terraform : List (String × ProviderConfig)

/-- Workspace, translated from types.go: the Name field carries the dash
yaml and json tags, excluding it from serialization. -/
structure Workspace where
  name : String
  modules : List (String × ModuleConfig)
  runtimes : Option RuntimeConfigs
  secretStore : Option SecretStoreSpec

/-- The serialized form of a Workspace: per the struct tags in types.go the
record carries modules, runtimes and secretStore, and no name field. -/
structure WorkspaceRecord where
  modules : List (String × ModuleConfig)
  runtimes : Option RuntimeConfigs
  secretStore : Option SecretStoreSpec

/-- Serialize a Workspace: the three tagged fields pass through and Name is
dropped per its dash tag. -/
def serializeWorkspace (w : Workspace) : WorkspaceRecord :=
  { modules := w.modules, runtimes := w.runtimes, secretStore := w.secretStore }

/-- Deserialize a Workspace: the record carries no name, so Name is the
empty string. -/
def deserializeWorkspace (x : WorkspaceRecord) : Workspace :=
  { name := "", modules := x.modules, runtimes := x.runtimes,
    secretStore := x.secretStore }

/-- C9: round-tripping any Workspace through serialization yields the empty
Name regardless of the original Name, while Modules, Runtimes and
SecretStore are reproduced unchanged. -/
theorem workspace_name_excluded (w : Workspace) :
    (deserializeWorkspace (serializeWorkspace w)).name = ""
    ∧ (deserializeWorkspace (serializeWorkspace w)).modules = w.modules
    ∧ (deserializeWorkspace (serializeWorkspace w)).runtimes = w.runtimes
    ∧ (deserializeWorkspace (serializeWorkspace w)).secretStore = w.secretStore :=
  ⟨rfl, rfl, rfl, rfl⟩

/-- The databaseGenerator of the accessories module, as constructed in its
tests: the identifying project, stack and application names plus the
database inputs. -/
structure DatabaseGenerator where
  projectName : String
  stackName : String
  appName : String
  dbType : String
  dbEngine : String
  dbVersion : String
  dbSize : Nat
  dbUsername : String

/-- Suffix appended to the application name to form database resource
names. -/
def dbResSuffix : String := "-db"

/-- Modelled from the spec: generateLocalPassword is absent from src; the
tests (TestGenerateLocalSecret, TestGenerateLocalResources) assert that a
later call with the same length reproduces the password, so it is a
deterministic function of the generator's identifying names and the length,
modelled as a truncated digit digest of project, stack and application
names. -/
def generateLocalPassword (g : DatabaseGenerator) (n : Nat) : String :=
  let seed := g.projectName ++ g.stackName ++ g.appName
  let digest := seed.foldl (fun h c => (h * 31 + c.toNat) % (2 ^ 64)) 5381
  String.join ((List.range n).map (fun i => toString ((digest / 10 ^ i) % 10)))

/-- The Secret object a local database generates, as asserted by
TestGenerateLocalResources. -/
structure SecretObj where
  name : String
  inNamespace : String
  stringData : List (String × String)

/-- Modelled from the spec: generateLocalResources is absent from src; per
TestGenerateLocalResources it produces a Secret named after the application
plus the database suffix, in the project's namespace, whose stringData
holds the local service host address, the database username and the
generated 16-character local password. -/
def generateLocalResources (g : DatabaseGenerator) : SecretObj :=
  { name := g.appName ++ dbResSuffix,
    inNamespace := g.projectName,
    stringData :=
      [("hostAddress", g.appName ++ "-db-local-service"),
       ("username", g.dbUsername),
       ("password", generateLocalPassword g 16)] }

/-- Look up a key of a Secret's string data. -/
def lookupData (d : List (String × String)) (k : String) : Option String :=
  match d.find? (fun e => e.1 == k) with
  | some e => some e.2
  | none => none

/-- C8: local database password generation is deterministic; two generators
agreeing on the identifying names produce the same password for the same
length, and the password stored in the Secret produced by
generateLocalResources equals a later recomputation with length 16. -/
theorem generateLocalPassword_deterministic (g g2 : DatabaseGenerator)
    (n : Nat) (h1 : g.projectName = g2.projectName)
    (h2 : g.stackName = g2.stackName) (h3 : g.appName = g2.appName) :
    generateLocalPassword g n = generateLocalPassword g2 n
    ∧ lookupData (generateLocalResources g).stringData "password"
        = some (generateLocalPassword g 16) := by
  constructor
  · rw [generateLocalPassword, generateLocalPassword, h1, h2, h3]
  · rfl

/-- The generator of the accessories tests. -/
def testGenerator : DatabaseGenerator :=
  { projectName := "testproject", stackName := "teststack",
    appName := "testapp", dbType := "local", dbEngine := "MariaDB",
    dbVersion := "10.5", dbSize := 10, dbUsername := "root" }

/-- A second generator sharing the identifying names of the test generator
but differing in the database inputs. -/
def testGenerator2 : DatabaseGenerator :=
  { projectName := "testproject", stackName := "teststack",
    appName := "testapp", dbType := "local", dbEngine := "MariaDB",
    dbVersion := "10.6", dbSize := 20, dbUsername := "admin" }

/-- Witness: password determinism evaluated at the test generators. -/
theorem generateLocalPassword_deterministic_witness :
    generateLocalPassword testGenerator 16 = generateLocalPassword testGenerator2 16
    ∧ lookupData (generateLocalResources testGenerator).stringData "password"
        = some (generateLocalPassword testGenerator 16) :=
  generateLocalPassword_deterministic testGenerator testGenerator2 16 rfl rfl rfl

/-- DeprecatedState, translated from types.go. The Resources slice is
optional so the Go nil slice is distinguished from an empty one. -/
structure DeprecatedState where
  id : Int
  project : String
  stack : String
  workspace : String
  version : Nat
  kusionVersion : String
  serial : Nat
  operator : String
  resources : Option (List Resource)
  createTime : Nat
  modifiedTime : Nat

/-- NewState, translated from types.go: builds a DeprecatedState whose
KusionVersion is the current release version (the version package is
external to src, so the version string is a parameter), whose Version is 1,
whose Resources is the empty non-nil slice, and whose remaining fields keep
their Go zero values. -/
def NewState (releaseVersion : String) : DeprecatedState :=
  { id := 0, project := "", stack := "", workspace := "", version := 1,
    kusionVersion := releaseVersion, serial := 0, operator := "",
    resources := some [], createTime := 0, modifiedTime := 0 }

/-- C10: NewState returns Version 1, an empty but non-nil Resources
collection, the current release version string as KusionVersion, and zero
values for ID, Project, Stack, Workspace, Serial, Operator, CreateTime and
ModifiedTime. -/
theorem newState_fields (v : String) :
    (NewState v).version = 1
    ∧ (NewState v).resources = some []
    ∧ (NewState v).resources ≠ none
    ∧ (NewState v).kusionVersion = v
    ∧ (NewState v).id = 0 ∧ (NewState v).project = ""
    ∧ (NewState v).stack = "" ∧ (NewState v).workspace = ""
    ∧ (NewState v).serial = 0 ∧ (NewState v).operator = ""
    ∧ (NewState v).createTime = 0 ∧ (NewState v).modifiedTime = 0 :=
  ⟨rfl, rfl, fun h => Option.noConfusion h, rfl, rfl, rfl, rfl, rfl, rfl,
    rfl, rfl, rfl⟩

/-- The desired resource of the Type-change counterexample input. -/
def typeChangeDesired : Resource :=
  { id := "a", type := "Terraform", attributes := [], dependsOn := [],
    extensions := [] }

/-- The last-state resource of the Type-change counterexample input. -/
def typeChangeLast : Resource :=
  { id := "a", type := "Kubernetes", attributes := [], dependsOn := [],
    extensions := [] }

/-- C3 counterexample: the ID "a" is present in both desired and last, yet
the differ does not assign it exactly one action, because its Type changed
and the spec plans Delete of the old plus Create of the new. -/
theorem diffActions_type_change_not_single :
    (diffActions [typeChangeDesired] [typeChangeLast] "a").length ≠ 1 := by
  decide

/-- Witness: the amended differ claim evaluated at a concrete input. -/
theorem diffActions_partition_witness :
    diffActions [typeChangeDesired] [] "a" = [Action.create] :=
  (diffActions_partition [typeChangeDesired] []
      (show (ids [typeChangeDesired]).Nodup by decide)
      (show (ids ([] : List Resource)).Nodup by decide) "a").2.1
    typeChangeDesired (List.mem_cons_self typeChangeDesired []) rfl
    (by simp [ids])

end Kusion
